import Mathlib

/-!
Verification development for the coffee-shop reporting dashboard (`app.py`).

The dashboard loads an Excel sheet into a dataframe, optionally filters it
through a generated UI (`filter_dataframe`), and renders report views.  This
file gives a shallow embedding of the data model and the operations the
specification talks about:

* `Table` — an in-memory dataframe: ordered column names plus rows of values.
* `filter_dataframe` — the type-driven filtering routine (app.py 351-425),
  with the streamlit widget values supplied as explicit `UserInput` data and
  the external library behaviour (`pd.to_datetime` element parsing, `re`
  pattern compilation used by `Series.str.contains`) supplied as an `PandasExt`
  record of functions.
* `nlargest` / `nsmallest` — the pandas top/bottom-N selection used by the
  Top 25 view (app.py 249-250), modelled as a stable descending/ascending
  sort followed by `take` (pandas `keep='first'` semantics).
* `get_data_from_excel` — the cached loader (app.py 427-444) under the
  `st.cache_data` semantics: the cache key is the tuple of the function's
  arguments, and `get_data_from_excel` takes no arguments.
* a small heap model (`Store`) making the `df = df.copy()` defensive copy and
  the in-place column assignments of the normalization pass observable.
-/

/-- A scalar cell value of the dataframe.  `i` is a numeric value, `s` a
text/object value, `dt wall tz` a datetime with wall-clock instant `wall`
and optional time-zone offset `tz` (pandas `tz_localize(None)` drops the
offset and keeps the wall time). -/
inductive Value : Type
  | i : Int → Value
  | s : String → Value
  | dt : Int → Option Int → Value
deriving DecidableEq, Repr

/-- An in-memory dataframe: ordered column names and rows of cell values. -/
structure Table : Type where
  cols : List String
  rows : List (List Value)
deriving DecidableEq, Repr

/-- Rows are aligned with the column list (pandas dataframes cannot be
ragged). -/
def Table.WF (t : Table) : Prop :=
  ∀ r ∈ t.rows, r.length = t.cols.length

instance (t : Table) : Decidable t.WF :=
  inferInstanceAs (Decidable (∀ r ∈ t.rows, r.length = t.cols.length))

/-- The cell of row `r` at the column named `c` (`df[column]` element
access): position of `c` in the column list, then positional access. -/
def cellOf (cols : List String) (c : String) (r : List Value) : Option Value :=
  (cols.findIdx? (fun n => n = c)).bind (fun idx => r[idx]?)

/-- The values of column `c` of table `t`, in row order (`df[column]`). -/
def colValues (t : Table) (c : String) : List Value :=
  t.rows.map (fun r => (cellOf t.cols c r).getD (Value.s ""))

/-- Boolean row mask deciding whether row `r` passes value predicate `p`
on column `c`. -/
def rowPass (cols : List String) (c : String) (p : Value → Bool)
    (r : List Value) : Bool :=
  match cellOf cols c r with
  | some v => p v
  | none => false

/-- `df = df[mask]` with a per-row mask: keep the rows passing `q`, in
their original order; columns are untouched. -/
def filterRowsBy (t : Table) (q : List Value → Bool) : Table :=
  ⟨t.cols, t.rows.filter q⟩

/-- `df = df[pred(df[column])]`: keep the rows whose cell in column `c`
satisfies `p`. -/
def filterRows (t : Table) (c : String) (p : Value → Bool) : Table :=
  filterRowsBy t (rowPass t.cols c p)

/-- `Series.unique()`: the distinct values of a list in first-seen order
(`seen` accumulates the values already emitted). -/
def uniqueAux : List Value → List Value → List Value
  | _, [] => []
  | seen, v :: rest =>
      if v ∈ seen then uniqueAux seen rest
      else v :: uniqueAux (v :: seen) rest

/-- `df[column].unique()` on the value list of a column. -/
def uniqueList (vals : List Value) : List Value :=
  uniqueAux [] vals

/-- `df[column].nunique()`: the number of distinct values. -/
def nunique (vals : List Value) : Nat :=
  (uniqueList vals).length

/-- Is this cell numeric? -/
def isNumV : Value → Bool
  | .i _ => true
  | _ => false

/-- Is this cell a datetime? -/
def isDtV : Value → Bool
  | .dt _ _ => true
  | _ => false

/-- `is_numeric_dtype(df[column])`: a pandas column has a numeric dtype
exactly when every cell is numeric. -/
def is_numeric_dtype (vals : List Value) : Bool :=
  vals.all isNumV

/-- `is_datetime64_any_dtype(df[column])`: every cell is a datetime. -/
def is_datetime64_any_dtype (vals : List Value) : Bool :=
  vals.all isDtV

/-- `is_object_dtype(df[column])`: the column is neither uniformly numeric
nor uniformly datetime (text and mixed columns). -/
def is_object_dtype (vals : List Value) : Bool :=
  !(vals.all isNumV) && !(vals.all isDtV)

/-- `is_categorical_dtype(df[column])`: Excel loads never produce the pandas
categorical dtype, so in this embedding the predicate is constantly false;
the disjunct is kept to mirror the source's branch condition. -/
def is_categorical_dtype (_vals : List Value) : Bool :=
  false

/-- Behaviour of the external libraries the filter calls into.
`parseDate` is the element-level parse of `pd.to_datetime` on a string
(returning wall time and optional tz offset), `reCompile` the `re` pattern
compilation used by `Series.str.contains` — `none` models an invalid
pattern, on which the library raises. -/
structure PandasExt : Type where
  parseDate : String → Option (Int × Option Int)
  reCompile : String → Option (String → Bool)

/-- `pd.to_datetime(df[col])` on an object column: succeeds only when every
cell is a string that parses as a date, producing the converted column;
otherwise the library raises (modelled as `none`, caught by the source's
`except Exception: pass`). -/
def tryToDatetime (ext : PandasExt) (vals : List Value) : Option (List Value) :=
  vals.mapM (fun v =>
    match v with
    | .s str => (ext.parseDate str).map (fun p => Value.dt p.1 p.2)
    | _ => none)

/-- `Series.dt.tz_localize(None)`: drop the time-zone offset, keep the wall
time. -/
def stripTz : Value → Value
  | .dt w _ => .dt w none
  | v => v

/-- The per-column normalization pass of `filter_dataframe` (app.py
369-377): an object column is best-effort converted to datetimes (failure
silently keeps it), and any datetime column is stripped of its tz offset. -/
def normalizeColVals (ext : PandasExt) (vals : List Value) : List Value :=
  let vals1 := if is_object_dtype vals then (tryToDatetime ext vals).getD vals
               else vals
  if is_datetime64_any_dtype vals1 then vals1.map stripTz else vals1

/-- Column `i` of the row list by position. -/
def getColVals (rows : List (List Value)) (i : Nat) : List Value :=
  rows.map (fun r => r.getD i (Value.s ""))

/-- The whole normalization pass: each column is normalized independently
(the source's loop mutates one column of the working copy at a time), and
the rows are rebuilt from the normalized columns. -/
def normalizeTable (ext : PandasExt) (t : Table) : Table :=
  let newCols := (List.range t.cols.length).map
    (fun idx => normalizeColVals ext (getColVals t.rows idx))
  ⟨t.cols,
   (List.range t.rows.length).map
     (fun j => newCols.map (fun col => col.getD j (Value.s "")))⟩

/-- Which branch of the `if/elif` chain (app.py 387-423) a column takes. -/
inductive Branch : Type
  | cat | num | date | text
deriving DecidableEq, Repr

/-- The branch dispatch of `filter_dataframe`: categorical dtype or fewer
than 20 distinct values → categorical; else numeric dtype → numeric range;
else datetime dtype → date range; else free text. -/
def classifyBranch (vals : List Value) : Branch :=
  if is_categorical_dtype vals || nunique vals < 20 then .cat
  else if is_numeric_dtype vals then .num
  else if is_datetime64_any_dtype vals then .date
  else .text

/-- `min` of an integer list, `0` on the empty list (the source only reads
it on a nonempty numeric column). -/
def minIntD : List Int → Int
  | [] => 0
  | x :: xs => xs.foldl min x

/-- `max` of an integer list, `0` on the empty list. -/
def maxIntD : List Int → Int
  | [] => 0
  | x :: xs => xs.foldl max x

/-- The numeric cells of a column. -/
def colInts (vals : List Value) : List Int :=
  vals.filterMap (fun v => match v with | .i n => some n | _ => none)

/-- The wall times of the datetime cells of a column. -/
def colDts (vals : List Value) : List Int :=
  vals.filterMap (fun v => match v with | .dt w _ => some w | _ => none)

/-- The widget `filter_dataframe` renders for one selected column, with its
default value.  The numeric slider carries `float(min)`, `float(max)`, the
step `(max - min) / 100` and the default range `(min, max)` (floats are
modelled as rationals). -/
inductive Control : Type
  | multiselect (options dflt : List Value)
  | slider (lo hi stp : Rat) (dflt : Rat × Rat)
  | dateRange (dflt : List Int)
  | textInput
deriving DecidableEq, Repr

/-- The widget chosen for column `c` of table `t` (app.py 387-421). -/
def chooseControl (t : Table) (c : String) : Control :=
  let vals := colValues t c
  match classifyBranch vals with
  | .cat => .multiselect (uniqueList vals) (uniqueList vals)
  | .num =>
      let lo : Rat := (minIntD (colInts vals) : Int)
      let hi : Rat := (maxIntD (colInts vals) : Int)
      .slider lo hi ((hi - lo) / 100) (lo, hi)
  | .date => .dateRange [minIntD (colDts vals), maxIntD (colDts vals)]
  | .text => .textInput

/-- The state of the widgets for one selected column.  `none` (resp. `""`)
means the user left the widget at its default. -/
structure UserInput : Type where
  cat : Option (List Value)
  num : Option (Rat × Rat)
  date : Option (List Int)
  text : String
deriving DecidableEq, Repr

/-- The error `re` raises on an invalid pattern inside
`Series.str.contains` (uncaught by the source). -/
def reErrMsg (pat : String) : String :=
  "re.error: " ++ pat

/-- One iteration of the filtering loop (app.py 383-423): classify the
column of the current (already narrowed) table, read the widget value (or
its default) and apply the branch's predicate.  An invalid text pattern
raises, modelled as `Except.error`. -/
def applyOneFilter (ext : PandasExt) (t : Table) (c : String) (inp : UserInput) :
    Except String Table :=
  let vals := colValues t c
  match classifyBranch vals with
  | .cat =>
      let dflt := uniqueList vals
      let chosen := inp.cat.getD dflt
      .ok (filterRows t c (fun v => decide (v ∈ chosen)))
  | .num =>
      let lo : Rat := (minIntD (colInts vals) : Int)
      let hi : Rat := (maxIntD (colInts vals) : Int)
      let rng := inp.num.getD (lo, hi)
      .ok (filterRows t c (fun v =>
        match v with
        | .i m => decide (rng.1 ≤ (m : Rat)) && decide ((m : Rat) ≤ rng.2)
        | _ => false))
  | .date =>
      let days := inp.date.getD [minIntD (colDts vals), maxIntD (colDts vals)]
      match days with
      | [a, b] =>
          .ok (filterRows t c (fun v =>
            match v with
            | .dt w _ => decide (a ≤ w) && decide (w ≤ b)
            | _ => false))
      | _ => .ok t
  | .text =>
      if inp.text = "" then .ok t
      else
        match ext.reCompile inp.text with
        | none => .error (reErrMsg inp.text)
        | some f =>
            .ok (filterRows t c (fun v =>
              match v with
              | .s str => f str
              | _ => false))

/-- The filtering loop over the user's selected columns, threading the
narrowed table (`for column in to_filter_columns`). -/
def applyFilters (ext : PandasExt) :
    Table → List (String × UserInput) → Except String Table
  | t, [] => .ok t
  | t, (c, inp) :: rest =>
      match applyOneFilter ext t c inp with
      | .error e => .error e
      | .ok t2 => applyFilters ext t2 rest

/-- `filter_dataframe` (app.py 351-425): with the checkbox off, the input
table is returned unchanged; otherwise the datetime normalization pass runs
on a working copy and the selected columns' filters are applied in order. -/
def filter_dataframe (ext : PandasExt) (modify : Bool)
    (sel : List (String × UserInput)) (df : Table) : Except String Table :=
  if modify then applyFilters ext (normalizeTable ext df) sel
  else .ok df

/-- The value of the numeric sort column for one row (`nlargest`/`nsmallest`
are only ever called on the numeric quantity column; a missing or
non-numeric cell is read as `0`). -/
def keyInt (cols : List String) (c : String) (r : List Value) : Int :=
  match cellOf cols c r with
  | some (.i n) => n
  | _ => 0

/-- Descending comparison on the sort column. -/
def relDesc (cols : List String) (c : String) (a b : List Value) : Prop :=
  keyInt cols c b ≤ keyInt cols c a

/-- Ascending comparison on the sort column. -/
def relAsc (cols : List String) (c : String) (a b : List Value) : Prop :=
  keyInt cols c a ≤ keyInt cols c b

instance (cols : List String) (c : String) : DecidableRel (relDesc cols c) :=
  fun _ _ => Int.decLe _ _

instance (cols : List String) (c : String) : DecidableRel (relAsc cols c) :=
  fun _ _ => Int.decLe _ _

/-- `df.nlargest(n, c)` (app.py 249): the `n` rows with the largest values
in column `c`, in descending order; pandas `keep='first'` breaks ties by
first occurrence, i.e. a stable descending sort followed by `take n`. -/
def nlargest (n : Nat) (c : String) (t : Table) : Table :=
  ⟨t.cols, (List.insertionSort (relDesc t.cols c) t.rows).take n⟩

/-- `df.nsmallest(n, c)` (app.py 250): the `n` rows with the smallest
values in column `c`, in ascending order, ties by first occurrence. -/
def nsmallest (n : Nat) (c : String) (t : Table) : Table :=
  ⟨t.cols, (List.insertionSort (relAsc t.cols c) t.rows).take n⟩

/-- `get_data_from_excel` (app.py 427-444) under `st.cache_data` semantics.
The cache key of `st.cache_data` is the tuple of the decorated function's
arguments; `get_data_from_excel()` takes no arguments, so the key is the
constant `()` and the cache is a single slot, independent of the
`uploaded_file` global it reads.  `read_excel` is the external
`pd.read_excel(io=uploaded_file, engine="openpyxl", sheet_name="Monthly")`
parse; the function returns the produced table and the updated cache
slot. -/
def get_data_from_excel {File : Type} (read_excel : File → Table)
    (uploaded_file : File) (cache : Option Table) : Table × Option Table :=
  match cache with
  | some t => (t, some t)
  | none =>
      let t := read_excel uploaded_file
      (t, some t)

/-- A heap of dataframe objects; references are indices.  This makes the
`df = df.copy()` defensive copy (app.py 366) and the in-place column
assignments of the normalization pass observable as heap writes. -/
structure Store : Type where
  tabs : List Table
deriving DecidableEq, Repr

/-- Dereference a table (an out-of-range reference reads an empty table;
the theorems only use live references). -/
def Store.getT (st : Store) (r : Nat) : Table :=
  st.tabs.getD r ⟨[], []⟩

/-- Allocate a fresh object holding `t`, returning its reference. -/
def Store.alloc (st : Store) (t : Table) : Store × Nat :=
  (⟨st.tabs ++ [t]⟩, st.tabs.length)

/-- Overwrite the object at reference `r` (an in-place mutation). -/
def Store.write (st : Store) (r : Nat) (t : Table) : Store :=
  ⟨st.tabs.set r t⟩

/-- The filtering loop on the heap: each `df = df[mask]` builds a fresh
dataframe object and rebinds the local `df` to it; the uncaught `re.error`
of an invalid text pattern aborts the loop. -/
def heapFilterLoop (ext : PandasExt) :
    List (String × UserInput) → Store → Nat → Store × Except String Nat
  | [], st, r => (st, .ok r)
  | (c, inp) :: rest, st, r =>
      match applyOneFilter ext (st.getT r) c inp with
      | .error e => (st, .error e)
      | .ok t =>
          let a := st.alloc t
          heapFilterLoop ext rest a.1 a.2

/-- `filter_dataframe` on the heap: with the checkbox off the caller's
reference is returned untouched; otherwise a copy of the caller's object is
allocated (`df = df.copy()`), the normalization pass mutates the copy in
place (`df[col] = ...`), and the filtering loop runs on the copy. -/
def filter_dataframe_heap (ext : PandasExt) (modify : Bool)
    (sel : List (String × UserInput)) (st : Store) (r : Nat) :
    Store × Except String Nat :=
  if modify then
    let a := st.alloc (st.getT r)
    let st2 := a.1.write a.2 (normalizeTable ext (a.1.getT a.2))
    heapFilterLoop ext sel st2 a.2
  else (st, .ok r)

/-! ### Basic lemmas about the embedding -/

/-- Membership in `uniqueAux`: a value is emitted iff it occurs in the
input and was not already seen. -/
theorem mem_uniqueAux (v : Value) :
    ∀ (l seen : List Value), v ∈ uniqueAux seen l ↔ (v ∈ l ∧ v ∉ seen)
  | [], seen => by simp [uniqueAux]
  | w :: rest, seen => by
      by_cases hw : w ∈ seen
      · rw [uniqueAux, if_pos hw, mem_uniqueAux v rest seen]
        constructor
        · exact fun h => ⟨List.mem_cons_of_mem w h.1, h.2⟩
        · rintro ⟨h1, h2⟩
          rcases List.mem_cons.mp h1 with h | h
          · exact absurd (h ▸ hw) h2
          · exact ⟨h, h2⟩
      · rw [uniqueAux, if_neg hw, List.mem_cons, mem_uniqueAux v rest (w :: seen)]
        constructor
        · rintro (h | ⟨h1, h2⟩)
          · exact ⟨h ▸ List.mem_cons_self w rest, h ▸ hw⟩
          · exact ⟨List.mem_cons_of_mem w h1,
              fun hs => h2 (List.mem_cons_of_mem w hs)⟩
        · rintro ⟨h1, h2⟩
          rcases List.mem_cons.mp h1 with h | h
          · exact Or.inl h
          · by_cases hvw : v = w
            · exact Or.inl hvw
            · refine Or.inr ⟨h, fun hs => ?_⟩
              rcases List.mem_cons.mp hs with h' | h'
              · exact hvw h'
              · exact h2 h'

/-- `Series.unique()` has the same members as the column. -/
theorem mem_uniqueList {v : Value} {vals : List Value} :
    v ∈ uniqueList vals ↔ v ∈ vals := by
  simp [uniqueList, mem_uniqueAux]

/-- `uniqueAux` never emits a duplicate. -/
theorem nodup_uniqueAux :
    ∀ (l seen : List Value), (uniqueAux seen l).Nodup
  | [], _ => by simp [uniqueAux]
  | w :: rest, seen => by
      by_cases hw : w ∈ seen
      · rw [uniqueAux, if_pos hw]
        exact nodup_uniqueAux rest seen
      · rw [uniqueAux, if_neg hw]
        refine List.nodup_cons.mpr ⟨?_, nodup_uniqueAux rest (w :: seen)⟩
        intro hmem
        exact ((mem_uniqueAux w rest (w :: seen)).mp hmem).2 (List.mem_cons_self w seen)

/-- `Series.unique()` has no duplicates. -/
theorem nodup_uniqueList (vals : List Value) : (uniqueList vals).Nodup :=
  nodup_uniqueAux vals []

/-- `findIdx?` finds an index when the sought column name occurs. -/
theorem findIdx?_of_mem {c : String} :
    ∀ (cols : List String) (i : Nat), c ∈ cols →
      ∃ idx, List.findIdx? (fun n => n = c) cols i = some idx
        ∧ i ≤ idx ∧ idx - i < cols.length
  | [], _, h => absurd h (List.not_mem_nil c)
  | a :: cs, i, h => by
      by_cases ha : a = c
      · refine ⟨i, ?_, le_refl i, by simp⟩
        rw [List.findIdx?_cons, if_pos (by simp [ha])]
      · have hc : c ∈ cs := by
          rcases List.mem_cons.mp h with h' | h'
          · exact absurd h'.symm ha
          · exact h'
        obtain ⟨idx, heq, hle, hlt⟩ := findIdx?_of_mem cs (i + 1) hc
        refine ⟨idx, ?_, by omega, by simp; omega⟩
        rw [List.findIdx?_cons, if_neg (by simp [ha]), heq]

/-- On a well-formed table, every live column has a cell in every row. -/
theorem cellOf_isSome_of_WF {t : Table} (hwf : t.WF) {c : String}
    {r : List Value} (hc : c ∈ t.cols) (hr : r ∈ t.rows) :
    ∃ v, cellOf t.cols c r = some v := by
  obtain ⟨idx, heq, -, hlt⟩ := findIdx?_of_mem t.cols 0 hc
  have hidx : idx < r.length := by rw [hwf r hr]; omega
  refine ⟨r[idx], ?_⟩
  rw [cellOf, heq]
  simp [List.getElem?_eq_getElem hidx]

/-- A cell read from a row of the table is one of the column's values. -/
theorem cellOf_mem_colValues {t : Table} {c : String} {r : List Value}
    {v : Value} (hr : r ∈ t.rows) (hv : cellOf t.cols c r = some v) :
    v ∈ colValues t c := by
  have hval : (cellOf t.cols c r).getD (Value.s "") = v := by rw [hv]; rfl
  rw [colValues, ← hval]
  exact List.mem_map_of_mem _ hr

/-! ### C1 — checkbox off is the identity -/

/-- C1: when the user has not opted in to filtering (the `Add filters`
checkbox is off), `filter_dataframe` returns its input table unchanged —
same rows, same order, same columns. -/
theorem C1_filter_off_identity (ext : PandasExt)
    (sel : List (String × UserInput)) (df : Table) :
    filter_dataframe ext false sel df = .ok df :=
  rfl

/-! ### C2 — sequential filters equal the conjunction -/

/-- C2: applying two fixed column filters sequentially (the second against
the already-narrowed table) yields exactly the table obtained by filtering
the original with the conjunction (AND) of the two row predicates. -/
theorem C2_sequential_filters_conj (t : Table) (c1 c2 : String)
    (p1 p2 : Value → Bool) :
    filterRows (filterRows t c1 p1) c2 p2
      = filterRowsBy t
          (fun r => rowPass t.cols c1 p1 r && rowPass t.cols c2 p2 r) := by
  simp only [filterRows, filterRowsBy]
  congr 1
  rw [List.filter_filter]
  exact List.filter_congr (fun r _ => Bool.and_comm _ _)

/-! ### C6 — categorical default selection is a no-op -/

/-- C6: for a column taking the categorical branch, the rendered
multiselect's default value-set is the full list of distinct observed
values, and applying the filter with that default leaves the table
unchanged (same rows, same order). -/
theorem C6_categorical_default_noop (ext : PandasExt) (t : Table)
    (c : String) (hwf : t.WF) (hc : c ∈ t.cols)
    (hcat : classifyBranch (colValues t c) = .cat) :
    chooseControl t c
        = .multiselect (uniqueList (colValues t c)) (uniqueList (colValues t c))
      ∧ applyOneFilter ext t c ⟨none, none, none, ""⟩ = .ok t := by
  constructor
  · simp only [chooseControl, hcat]
  · simp only [applyOneFilter, hcat, Option.getD_none]
    have hall : ∀ r ∈ t.rows,
        rowPass t.cols c (fun v => decide (v ∈ uniqueList (colValues t c))) r
          = true := by
      intro r hr
      obtain ⟨v, hv⟩ := cellOf_isSome_of_WF hwf hc hr
      rw [rowPass, hv]
      exact decide_eq_true (mem_uniqueList.mpr (cellOf_mem_colValues hr hv))
    have : filterRows t c (fun v => decide (v ∈ uniqueList (colValues t c))) = t := by
      obtain ⟨cols, rows⟩ := t
      simp only [filterRows, filterRowsBy]
      congr 1
      exact List.filter_eq_self.mpr hall
    rw [this]

/-! ### C9 — the categorical test is checked first -/

/-- C9: the branch dispatch tests the categorical condition before the
numeric and date-time dtype conditions, so any column with fewer than 20
distinct values — whatever its dtype — is classified categorical, receives
the multiselect control, and is filtered with the set-membership
predicate, never a range control. -/
theorem C9_low_cardinality_is_categorical (t : Table) (c : String)
    (h : nunique (colValues t c) < 20) :
    classifyBranch (colValues t c) = .cat
      ∧ chooseControl t c
          = .multiselect (uniqueList (colValues t c)) (uniqueList (colValues t c))
      ∧ ∀ (ext : PandasExt) (inp : UserInput),
          applyOneFilter ext t c inp
            = .ok (filterRows t c
                (fun v => decide (v ∈ inp.cat.getD (uniqueList (colValues t c))))) := by
  have hcls : classifyBranch (colValues t c) = .cat := by
    simp [classifyBranch, is_categorical_dtype, h]
  refine ⟨hcls, by simp only [chooseControl, hcls], fun ext inp => ?_⟩
  simp only [applyOneFilter, hcls]

/-- A trivial external-library instance: no string parses as a date and
every pattern is invalid.  Used to instantiate witnesses. -/
def extTriv : PandasExt :=
  ⟨fun _ => none, fun _ => none⟩

/-- Small categorical table: one text column with two distinct values. -/
def ex6 : Table :=
  ⟨["TURU"], [[Value.s "A"], [Value.s "B"], [Value.s "A"]]⟩

/-- Witness for C6 at a concrete table. -/
theorem C6_witness :
    ex6.WF ∧ "TURU" ∈ ex6.cols ∧ classifyBranch (colValues ex6 "TURU") = .cat
      ∧ (chooseControl ex6 "TURU"
            = .multiselect (uniqueList (colValues ex6 "TURU"))
                (uniqueList (colValues ex6 "TURU"))
          ∧ applyOneFilter extTriv ex6 "TURU" ⟨none, none, none, ""⟩ = .ok ex6) :=
  ⟨by decide, by decide, by decide,
    C6_categorical_default_noop extTriv ex6 "TURU" (by decide) (by decide) (by decide)⟩

/-- Small numeric table with fewer than 20 distinct values. -/
def ex9 : Table :=
  ⟨["MIKTAR"], [[Value.i 3], [Value.i 3], [Value.i 7]]⟩

/-- Witness for C9: a numeric column with 2 distinct values takes the
categorical branch. -/
theorem C9_witness :
    nunique (colValues ex9 "MIKTAR") < 20
      ∧ (classifyBranch (colValues ex9 "MIKTAR") = .cat
          ∧ chooseControl ex9 "MIKTAR"
              = .multiselect (uniqueList (colValues ex9 "MIKTAR"))
                  (uniqueList (colValues ex9 "MIKTAR"))
          ∧ ∀ (ext : PandasExt) (inp : UserInput),
              applyOneFilter ext ex9 "MIKTAR" inp
                = .ok (filterRows ex9 "MIKTAR"
                    (fun v => decide (v ∈ inp.cat.getD (uniqueList (colValues ex9 "MIKTAR")))))) :=
  ⟨by decide, C9_low_cardinality_is_categorical ex9 "MIKTAR" (by decide)⟩

/-! ### C3 — a constant numeric column never reaches the slider -/

/-- Is this control the numeric range slider? -/
def isSliderControl : Control → Bool
  | .slider _ _ _ _ => true
  | _ => false

/-- A numeric column holding a single distinct value (min = max). -/
def ex3 : Table :=
  ⟨["Q"], [[Value.i 5], [Value.i 5]]⟩

/-- C3 counterexample: on a numeric column whose observed minimum equals
its observed maximum, `filter_dataframe` does not produce a single-point
range control at all — the column has one distinct value, so it takes the
categorical branch and gets a multiselect, not a (degenerate) slider. -/
theorem C3_counterexample :
    chooseControl ex3 "Q" = .multiselect [Value.i 5] [Value.i 5]
      ∧ isSliderControl (chooseControl ex3 "Q") = false := by
  decide

/-- `foldl min` is bounded by its initial accumulator. -/
theorem foldl_min_le_init : ∀ (xs : List Int) (a : Int), xs.foldl min a ≤ a
  | [], a => le_refl a
  | x :: xs, a => le_trans (foldl_min_le_init xs (min a x)) (min_le_left a x)

/-- `foldl min` is bounded by every list element. -/
theorem foldl_min_le_mem :
    ∀ (xs : List Int) (a x : Int), x ∈ xs → xs.foldl min a ≤ x
  | [], _, _, hx => absurd hx (List.not_mem_nil _)
  | y :: ys, a, x, hx => by
      rcases List.mem_cons.mp hx with h | h
      · rw [h]
        exact le_trans (foldl_min_le_init ys (min a y)) (min_le_right a y)
      · exact foldl_min_le_mem ys (min a y) x h

/-- `minIntD` is a lower bound of the list. -/
theorem minIntD_le {l : List Int} {x : Int} (hx : x ∈ l) : minIntD l ≤ x := by
  cases l with
  | nil => exact absurd hx (List.not_mem_nil _)
  | cons y ys =>
      rcases List.mem_cons.mp hx with h | h
      · rw [h]
        exact foldl_min_le_init ys y
      · exact foldl_min_le_mem ys y x h

/-- `foldl max` dominates its initial accumulator. -/
theorem init_le_foldl_max : ∀ (xs : List Int) (a : Int), a ≤ xs.foldl max a
  | [], a => le_refl a
  | x :: xs, a => le_trans (le_max_left a x) (init_le_foldl_max xs (max a x))

/-- `foldl max` dominates every list element. -/
theorem mem_le_foldl_max :
    ∀ (xs : List Int) (a x : Int), x ∈ xs → x ≤ xs.foldl max a
  | [], _, _, hx => absurd hx (List.not_mem_nil _)
  | y :: ys, a, x, hx => by
      rcases List.mem_cons.mp hx with h | h
      · rw [h]
        exact le_trans (le_max_right a y) (init_le_foldl_max ys (max a y))
      · exact mem_le_foldl_max ys (max a y) x h

/-- `maxIntD` is an upper bound of the list. -/
theorem le_maxIntD {l : List Int} {x : Int} (hx : x ∈ l) : x ≤ maxIntD l := by
  cases l with
  | nil => exact absurd hx (List.not_mem_nil _)
  | cons y ys =>
      rcases List.mem_cons.mp hx with h | h
      · rw [h]
        exact init_le_foldl_max ys y
      · exact mem_le_foldl_max ys y x h

/-- C3 (amended): a numeric column whose observed minimum equals its
observed maximum has a single distinct value, hence takes the categorical
branch and receives the multiselect control — the slider (and its step
computation) is never built for it.  Moreover any column that does get the
slider has at least 20 distinct values, so its range is non-degenerate and
the step `(max - min) / 100` is strictly positive: no zero-width range and
no zero step ever reaches the slider. -/
theorem C3_single_value_no_slider :
    (∀ (t : Table) (c : String),
        is_numeric_dtype (colValues t c) = true →
        minIntD (colInts (colValues t c)) = maxIntD (colInts (colValues t c)) →
        chooseControl t c
          = .multiselect (uniqueList (colValues t c)) (uniqueList (colValues t c)))
      ∧ (∀ (t : Table) (c : String) (lo hi stp : Rat) (dflt : Rat × Rat),
          chooseControl t c = .slider lo hi stp dflt → lo < hi ∧ 0 < stp) := by
  constructor
  · intro t c hnum hmm
    have hconst : ∀ v ∈ colValues t c,
        v = Value.i (minIntD (colInts (colValues t c))) := by
      intro v hv
      have hnv : isNumV v = true := List.all_eq_true.mp hnum v hv
      cases v with
      | i m =>
          have hmem : m ∈ colInts (colValues t c) :=
            List.mem_filterMap.mpr ⟨Value.i m, hv, rfl⟩
          have h1 := minIntD_le hmem
          have h2 := le_maxIntD hmem
          have : m = minIntD (colInts (colValues t c)) := by omega
          rw [this]
      | s str => simp [isNumV] at hnv
      | dt w z => simp [isNumV] at hnv
    have hn1 : nunique (colValues t c) < 20 := by
      rcases hul : uniqueList (colValues t c) with _ | ⟨a, _ | ⟨b, rest2⟩⟩
      · rw [nunique, hul]; simp
      · rw [nunique, hul]; simp
      · exfalso
        have hnd := nodup_uniqueList (colValues t c)
        rw [hul] at hnd
        have hamem : a ∈ uniqueList (colValues t c) := by
          rw [hul]; exact List.mem_cons_self _ _
        have hbmem : b ∈ uniqueList (colValues t c) := by
          rw [hul]; exact List.mem_cons_of_mem _ (List.mem_cons_self _ _)
        have ha := hconst a (mem_uniqueList.mp hamem)
        have hb := hconst b (mem_uniqueList.mp hbmem)
        rcases List.nodup_cons.mp hnd with ⟨hnotin, -⟩
        exact hnotin ((ha.trans hb.symm) ▸ List.mem_cons_self b rest2)
    have hcls : classifyBranch (colValues t c) = .cat := by
      simp [classifyBranch, is_categorical_dtype, hn1]
    simp only [chooseControl, hcls]
  · intro t c lo hi stp dflt hch
    cases hcls : classifyBranch (colValues t c) with
    | cat => simp [chooseControl, hcls] at hch
    | date => simp [chooseControl, hcls] at hch
    | text => simp [chooseControl, hcls] at hch
    | num =>
        simp only [chooseControl, hcls] at hch
        injection hch with hL hH hS hD
        have hnlt : ¬ nunique (colValues t c) < 20 := by
          intro hlt
          simp [classifyBranch, is_categorical_dtype, hlt] at hcls
        have hnum : is_numeric_dtype (colValues t c) = true := by
          by_contra hn
          cases hdt : is_datetime64_any_dtype (colValues t c) <;>
            simp [classifyBranch, is_categorical_dtype, hnlt, hn, hdt] at hcls
        have hminmax : minIntD (colInts (colValues t c))
            < maxIntD (colInts (colValues t c)) := by
          rcases hul : uniqueList (colValues t c) with _ | ⟨a, _ | ⟨b, rest2⟩⟩
          · rw [nunique, hul] at hnlt; simp at hnlt
          · rw [nunique, hul] at hnlt; simp at hnlt
          · have hnd := nodup_uniqueList (colValues t c)
            rw [hul] at hnd
            rcases List.nodup_cons.mp hnd with ⟨hnotin, -⟩
            have hab : a ≠ b := fun h => hnotin (h ▸ List.mem_cons_self b rest2)
            have hamem : a ∈ colValues t c := mem_uniqueList.mp (by
              rw [hul]; exact List.mem_cons_self _ _)
            have hbmem : b ∈ colValues t c := mem_uniqueList.mp (by
              rw [hul]; exact List.mem_cons_of_mem _ (List.mem_cons_self _ _))
            have hna : isNumV a = true := List.all_eq_true.mp hnum a hamem
            have hnb : isNumV b = true := List.all_eq_true.mp hnum b hbmem
            cases a with
            | i m =>
                cases b with
                | i n =>
                    have hmn : m ≠ n := fun h => hab (h ▸ rfl)
                    have hm : m ∈ colInts (colValues t c) :=
                      List.mem_filterMap.mpr ⟨Value.i m, hamem, rfl⟩
                    have hn' : n ∈ colInts (colValues t c) :=
                      List.mem_filterMap.mpr ⟨Value.i n, hbmem, rfl⟩
                    have := minIntD_le hm
                    have := minIntD_le hn'
                    have := le_maxIntD hm
                    have := le_maxIntD hn'
                    omega
                | s str => simp [isNumV] at hnb
                | dt w z => simp [isNumV] at hnb
            | s str => simp [isNumV] at hna
            | dt w z => simp [isNumV] at hna
        have hlohi : lo < hi := by
          rw [← hL, ← hH]
          exact_mod_cast hminmax
        refine ⟨hlohi, ?_⟩
        rw [← hS]
        apply div_pos
        · rw [sub_pos]
          exact_mod_cast hminmax
        · norm_num

/-- Witness for C3 at the concrete constant column. -/
theorem C3_witness :
    is_numeric_dtype (colValues ex3 "Q") = true
      ∧ minIntD (colInts (colValues ex3 "Q")) = maxIntD (colInts (colValues ex3 "Q"))
      ∧ chooseControl ex3 "Q"
          = .multiselect (uniqueList (colValues ex3 "Q")) (uniqueList (colValues ex3 "Q")) :=
  ⟨by decide, by decide, C3_single_value_no_slider.1 ex3 "Q" (by decide) (by decide)⟩

/-! ### C4 — an invalid text pattern aborts the whole filter step -/

/-- C4 (amended): when a selected column takes the free-text branch and the
entered pattern is invalid, the `re.error` raised inside
`Series.str.contains` is not caught by `filter_dataframe`: the whole filter
step errors out (aborting the page run) instead of skipping just that
column's filter. -/
theorem C4_invalid_pattern_aborts (ext : PandasExt) (t : Table) (c : String)
    (inp : UserInput) (rest : List (String × UserInput))
    (hcls : classifyBranch (colValues (normalizeTable ext t) c) = .text)
    (hne : inp.text ≠ "")
    (hbad : ext.reCompile inp.text = none) :
    filter_dataframe ext true ((c, inp) :: rest) t
      = .error (reErrMsg inp.text) := by
  have h1 : applyOneFilter ext (normalizeTable ext t) c inp
      = .error (reErrMsg inp.text) := by
    simp only [applyOneFilter, hcls, if_neg hne, hbad]
  simp [filter_dataframe, applyFilters, h1]

/-- A table with one text column of 20 distinct values (so the column is
classified free-text, not categorical). -/
def t4 : Table :=
  ⟨["NAME"],
   [[Value.s "pa"], [Value.s "pb"], [Value.s "pc"], [Value.s "pd"],
    [Value.s "pe"], [Value.s "pf"], [Value.s "pg"], [Value.s "ph"],
    [Value.s "pi"], [Value.s "pj"], [Value.s "pk"], [Value.s "pl"],
    [Value.s "pm"], [Value.s "pn"], [Value.s "po"], [Value.s "pp"],
    [Value.s "pq"], [Value.s "pr"], [Value.s "ps"], [Value.s "pt"]]⟩

/-- An external-library instance on which the pattern `"("` is invalid
(as it is for Python's `re`) and no string parses as a date. -/
def ext4 : PandasExt :=
  ⟨fun _ => none, fun p => if p = "(" then none else some (fun _ => true)⟩

/-- The user typed the invalid pattern `"("` into the free-text box. -/
def inp4 : UserInput :=
  ⟨none, none, none, "("⟩

/-- C4 counterexample: with the invalid pattern `"("` on a free-text
column, `filter_dataframe` returns an error — it does not return the table
with that column's filter skipped, contrary to the claim. -/
theorem C4_counterexample :
    filter_dataframe ext4 true [("NAME", inp4)] t4 = .error (reErrMsg "(")
      ∧ filter_dataframe ext4 true [("NAME", inp4)] t4
          ≠ .ok (normalizeTable ext4 t4) := by
  have key : filter_dataframe ext4 true [("NAME", inp4)] t4
      = .error (reErrMsg "(") := rfl
  refine ⟨key, fun h => ?_⟩
  rw [key] at h
  exact Except.noConfusion h

/-- Witness for C4 at the concrete table and pattern. -/
theorem C4_witness :
    classifyBranch (colValues (normalizeTable ext4 t4) "NAME") = .text
      ∧ inp4.text ≠ ""
      ∧ ext4.reCompile inp4.text = none
      ∧ filter_dataframe ext4 true [("NAME", inp4)] t4
          = .error (reErrMsg inp4.text) :=
  ⟨by decide, by decide, rfl,
    C4_invalid_pattern_aborts ext4 t4 "NAME" inp4 [] (by decide) (by decide) rfl⟩

/-! ### C5 — the loader's cache key ignores the uploaded file -/

/-- A loader producing a distinct one-cell table per file identity. -/
def natRead : Nat → Table :=
  fun n => ⟨["N"], [[Value.i n]]⟩

/-- C5: `get_data_from_excel` is cached by `st.cache_data`, whose key is
the (empty) argument tuple — not the uploaded file content.  After a first
successful load, every later call returns the first file's table: uploading
a file with different content yields the stale cached table, not the new
file's table.  The second conjunct exhibits the divergence concretely. -/
theorem C5_cache_ignores_upload :
    (∀ (File : Type) (read_excel : File → Table) (f1 f2 : File),
        (get_data_from_excel read_excel f2
            (get_data_from_excel read_excel f1 none).2).1 = read_excel f1)
      ∧ (get_data_from_excel natRead 2 (get_data_from_excel natRead 1 none).2).1
          ≠ natRead 2 := by
  exact ⟨fun _ _ _ _ => rfl, by decide⟩

/-! ### C10 — every branch only narrows the table -/

/-- One filter iteration only narrows: whenever it succeeds, the columns
are unchanged and the surviving rows are a sublist (subset in original
relative order) of the input rows. -/
theorem applyOneFilter_ok_narrows (ext : PandasExt) (t : Table) (c : String)
    (inp : UserInput) (t' : Table)
    (h : applyOneFilter ext t c inp = .ok t') :
    t'.cols = t.cols ∧ t'.rows.Sublist t.rows := by
  cases hcls : classifyBranch (colValues t c) with
  | cat =>
      simp only [applyOneFilter, hcls, Except.ok.injEq] at h
      exact ⟨by rw [← h]; rfl, by rw [← h]; exact List.filter_sublist _⟩
  | num =>
      simp only [applyOneFilter, hcls, Except.ok.injEq] at h
      exact ⟨by rw [← h]; rfl, by rw [← h]; exact List.filter_sublist _⟩
  | date =>
      simp only [applyOneFilter, hcls] at h
      generalize inp.date.getD
          [minIntD (colDts (colValues t c)), maxIntD (colDts (colValues t c))]
        = days at h
      rcases days with - | ⟨a, - | ⟨b, - | ⟨x, xs⟩⟩⟩
      · have h' := Except.ok.inj h
        exact ⟨by rw [← h'], by rw [← h']⟩
      · have h' := Except.ok.inj h
        exact ⟨by rw [← h'], by rw [← h']⟩
      · have h' := Except.ok.inj h
        exact ⟨by rw [← h']; rfl, by rw [← h']; exact List.filter_sublist _⟩
      · have h' := Except.ok.inj h
        exact ⟨by rw [← h'], by rw [← h']⟩
  | text =>
      simp only [applyOneFilter, hcls] at h
      by_cases hne : inp.text = ""
      · rw [if_pos hne, Except.ok.injEq] at h
        exact ⟨by rw [← h], by rw [← h]⟩
      · rw [if_neg hne] at h
        cases hre : ext.reCompile inp.text with
        | none => rw [hre] at h; exact Except.noConfusion h
        | some f =>
            rw [hre, Except.ok.injEq] at h
            exact ⟨by rw [← h]; rfl, by rw [← h]; exact List.filter_sublist _⟩

/-- The whole filtering loop only narrows. -/
theorem applyFilters_ok_narrows (ext : PandasExt) :
    ∀ (sel : List (String × UserInput)) (t t' : Table),
      applyFilters ext t sel = .ok t' →
      t'.cols = t.cols ∧ t'.rows.Sublist t.rows
  | [], t, t', h => by
      simp only [applyFilters, Except.ok.injEq] at h
      exact ⟨by rw [← h], by rw [← h]⟩
  | (c, inp) :: rest, t, t', h => by
      cases happ : applyOneFilter ext t c inp with
      | error e =>
          rw [applyFilters, happ] at h
          exact Except.noConfusion h
      | ok t2 =>
          rw [applyFilters, happ] at h
          obtain ⟨hc2, hs2⟩ := applyFilters_ok_narrows ext rest t2 t' h
          obtain ⟨hc1, hs1⟩ := applyOneFilter_ok_narrows ext t c inp t2 happ
          exact ⟨hc2.trans hc1, hs2.trans hs1⟩

/-- C10: whatever the user's filter choices, a successful
`filter_dataframe` run returns a table with the same column names whose
rows are a sublist — a subset preserved in original relative order — of
the rows it filtered (the normalized input when filtering is enabled, the
input itself otherwise). -/
theorem C10_filter_only_narrows (ext : PandasExt) (modify : Bool)
    (sel : List (String × UserInput)) (t t' : Table)
    (h : filter_dataframe ext modify sel t = .ok t') :
    t'.cols = t.cols
      ∧ t'.rows.Sublist (if modify then normalizeTable ext t else t).rows := by
  cases modify with
  | false =>
      simp only [filter_dataframe, Bool.false_eq_true, if_false,
        Except.ok.injEq] at h
      simp only [Bool.false_eq_true, if_false]
      exact ⟨by rw [← h], by rw [← h]⟩
  | true =>
      simp only [filter_dataframe, if_true] at h
      obtain ⟨hc, hs⟩ := applyFilters_ok_narrows ext sel (normalizeTable ext t) t' h
      refine ⟨hc.trans rfl, ?_⟩
      simpa using hs

/-- A small concrete table for witnesses. -/
def tW : Table :=
  ⟨["A"], [[Value.i 1], [Value.i 2]]⟩

/-- Witness for C10: a successful run on a concrete table. -/
theorem C10_witness :
    filter_dataframe extTriv true [] tW = .ok (normalizeTable extTriv tW)
      ∧ ((normalizeTable extTriv tW).cols = tW.cols
          ∧ (normalizeTable extTriv tW).rows.Sublist
              (if true then normalizeTable extTriv tW else tW).rows) :=
  ⟨rfl, C10_filter_only_narrows extTriv true [] tW (normalizeTable extTriv tW) rfl⟩

/-! ### C8 — the original table is never mutated -/

/-- Allocation does not disturb existing objects. -/
theorem Store.getT_alloc_old {st : Store} {t : Table} {i : Nat}
    (h : i < st.tabs.length) : (st.alloc t).1.getT i = st.getT i := by
  simp only [Store.alloc, Store.getT]
  exact List.getD_append _ _ _ i h

/-- Dereferencing a fresh allocation yields the allocated table. -/
theorem Store.getT_alloc_new (st : Store) (t : Table) :
    (st.alloc t).1.getT (st.alloc t).2 = t := by
  simp only [Store.alloc, Store.getT]
  rw [List.getD_eq_getElem?_getD, List.getElem?_append_right (le_refl _)]
  simp

/-- Writing one object leaves the others unchanged. -/
theorem Store.getT_write_ne {st : Store} {r1 r2 : Nat} {t : Table}
    (h : r1 ≠ r2) : (st.write r1 t).getT r2 = st.getT r2 := by
  simp only [Store.write, Store.getT]
  rw [List.getD_eq_getElem?_getD, List.getD_eq_getElem?_getD,
    List.getElem?_set_ne h]

/-- Reading back an in-bounds write yields the written table. -/
theorem Store.getT_write_self {st : Store} {r1 : Nat} {t : Table}
    (h : r1 < st.tabs.length) : (st.write r1 t).getT r1 = t := by
  simp only [Store.write, Store.getT]
  rw [List.getD_eq_getElem?_getD, List.getElem?_set_self h]
  rfl

/-- The filtering loop never writes to a pre-existing object: it only
allocates fresh dataframes. -/
theorem heapFilterLoop_preserves (ext : PandasExt) :
    ∀ (sel : List (String × UserInput)) (st : Store) (r i : Nat),
      i < st.tabs.length →
      (heapFilterLoop ext sel st r).1.getT i = st.getT i
  | [], _, _, _, _ => rfl
  | (c, inp) :: rest, st, r, i, hi => by
      cases happ : applyOneFilter ext (st.getT r) c inp with
      | error e => simp [heapFilterLoop, happ]
      | ok t =>
          simp only [heapFilterLoop, happ]
          have hlen : i < (st.alloc t).1.tabs.length := by
            simp only [Store.alloc, List.length_append, List.length_cons,
              List.length_nil]
            omega
          rw [heapFilterLoop_preserves ext rest (st.alloc t).1 (st.alloc t).2 i hlen,
            Store.getT_alloc_old hi]

/-- The heap loop computes exactly the pure filtering loop on the table
the working reference points to. -/
theorem heapFilterLoop_models (ext : PandasExt) :
    ∀ (sel : List (String × UserInput)) (st : Store) (r : Nat),
      ((heapFilterLoop ext sel st r).2.map (heapFilterLoop ext sel st r).1.getT)
        = applyFilters ext (st.getT r) sel
  | [], _, _ => rfl
  | (c, inp) :: rest, st, r => by
      cases happ : applyOneFilter ext (st.getT r) c inp with
      | error e => simp [heapFilterLoop, applyFilters, happ, Except.map]
      | ok t =>
          simp only [heapFilterLoop, applyFilters, happ]
          have ih := heapFilterLoop_models ext rest (st.alloc t).1 (st.alloc t).2
          rw [Store.getT_alloc_new] at ih
          exact ih

/-- C8: `filter_dataframe` operates on a defensive copy.  Run on the heap,
it leaves the caller's original dataframe object untouched — neither the
normalization pass (which writes columns in place, but only on the copy)
nor any applied filter changes it — and the result it computes is exactly
the pure `filter_dataframe` of the original table. -/
theorem C8_defensive_copy (ext : PandasExt) (modify : Bool)
    (sel : List (String × UserInput)) (st : Store) (r : Nat)
    (h : r < st.tabs.length) :
    (filter_dataframe_heap ext modify sel st r).1.getT r = st.getT r
      ∧ ((filter_dataframe_heap ext modify sel st r).2.map
            (filter_dataframe_heap ext modify sel st r).1.getT)
          = filter_dataframe ext modify sel (st.getT r) := by
  cases modify with
  | false => exact ⟨rfl, rfl⟩
  | true =>
      simp only [filter_dataframe_heap, filter_dataframe, if_true]
      have hr1 : (st.alloc (st.getT r)).2 = st.tabs.length := rfl
      have hcopy : (st.alloc (st.getT r)).1.getT (st.alloc (st.getT r)).2
          = st.getT r := Store.getT_alloc_new st _
      have hwlen : (st.alloc (st.getT r)).2 < (st.alloc (st.getT r)).1.tabs.length := by
        simp [Store.alloc]
      have hst2 :
          (((st.alloc (st.getT r)).1.write (st.alloc (st.getT r)).2
              (normalizeTable ext
                ((st.alloc (st.getT r)).1.getT (st.alloc (st.getT r)).2))).getT
            (st.alloc (st.getT r)).2)
          = normalizeTable ext (st.getT r) := by
        rw [Store.getT_write_self hwlen, hcopy]
      constructor
      · have hne : (st.alloc (st.getT r)).2 ≠ r := by omega
        have hlen2 : r < ((st.alloc (st.getT r)).1.write (st.alloc (st.getT r)).2
            (normalizeTable ext
              ((st.alloc (st.getT r)).1.getT (st.alloc (st.getT r)).2))).tabs.length := by
          simp only [Store.write, List.length_set, Store.alloc,
            List.length_append, List.length_cons, List.length_nil]
          omega
        rw [heapFilterLoop_preserves ext sel _ _ r hlen2,
          Store.getT_write_ne hne, Store.getT_alloc_old h]
      · rw [heapFilterLoop_models ext sel _ _, hst2]

/-- A one-object heap for the C8 witness. -/
def stW : Store :=
  ⟨[tW]⟩

/-- Witness for C8 on a concrete heap. -/
theorem C8_witness :
    0 < stW.tabs.length
      ∧ ((filter_dataframe_heap extTriv true [] stW 0).1.getT 0 = stW.getT 0
          ∧ ((filter_dataframe_heap extTriv true [] stW 0).2.map
                (filter_dataframe_heap extTriv true [] stW 0).1.getT)
              = filter_dataframe extTriv true [] (stW.getT 0)) :=
  ⟨by decide, C8_defensive_copy extTriv true [] stW 0 (by decide)⟩

/-! ### C7 — the Top 25 selection -/

instance (cols : List String) (c : String) : IsTotal (List Value) (relDesc cols c) :=
  ⟨fun x y => Int.le_total (keyInt cols c y) (keyInt cols c x)⟩

instance (cols : List String) (c : String) : IsTrans (List Value) (relDesc cols c) :=
  ⟨fun _ _ _ hab hbc => le_trans hbc hab⟩

instance (cols : List String) (c : String) : IsTotal (List Value) (relAsc cols c) :=
  ⟨fun x y => Int.le_total (keyInt cols c x) (keyInt cols c y)⟩

instance (cols : List String) (c : String) : IsTrans (List Value) (relAsc cols c) :=
  ⟨fun _ _ _ hab hbc => le_trans hab hbc⟩

/-- A count of matches is strictly below the length when some member does
not match. -/
theorem countP_lt_length_of_mem_not {α : Type} (p : α → Bool) :
    ∀ (l : List α) (r : α), r ∈ l → p r = false → l.countP p < l.length
  | [], r, hr, _ => absurd hr (List.not_mem_nil r)
  | a :: l, r, hr, hp => by
      rcases List.mem_cons.mp hr with h | h
      · subst h
        rw [List.countP_cons, hp]
        simp only [Bool.false_eq_true, if_false, List.length_cons]
        have := List.countP_le_length p (l := l)
        omega
      · have ih := countP_lt_length_of_mem_not p l r h hp
        rw [List.countP_cons, List.length_cons]
        cases hpa : p a <;> simp <;> omega

/-- Splitting a list's length by the three-way comparison of the sort key
against a pivot. -/
theorem countP_key_trichotomy {α : Type} (key : α → Int) (r0 : Int) :
    ∀ l : List α,
      l.length
        = l.countP (fun x => decide (r0 < key x))
          + l.countP (fun x => decide (key x < r0))
          + l.countP (fun x => decide (key x = r0))
  | [] => rfl
  | a :: l => by
      have ih := countP_key_trichotomy key r0 l
      simp only [List.countP_cons, List.length_cons]
      rcases lt_trichotomy r0 (key a) with h | h | h
      · rw [decide_eq_true h, decide_eq_false (by omega : ¬ key a < r0),
          decide_eq_false (by omega : ¬ key a = r0)]
        simp
        omega
      · rw [decide_eq_false (by omega : ¬ r0 < key a),
          decide_eq_false (by omega : ¬ key a < r0),
          decide_eq_true (by omega : key a = r0)]
        simp
        omega
      · rw [decide_eq_false (by omega : ¬ r0 < key a),
          decide_eq_true h, decide_eq_false (by omega : ¬ key a = r0)]
        simp
        omega

/-- In a descending-sorted list, a member of the first `n` entries is
strictly larger (by key) than fewer than `n` entries. -/
theorem mem_take_countGT_lt {α : Type} (key : α → Int) {s : List α}
    (hs : List.Pairwise (fun a b => key b ≤ key a) s) {n : Nat} {r : α}
    (hr : r ∈ s.take n) :
    s.countP (fun x => decide (key r < key x)) < n := by
  have hsplit : s.take n ++ s.drop n = s := List.take_append_drop n s
  have hpw : List.Pairwise (fun a b => key b ≤ key a) (s.take n ++ s.drop n) := by
    rw [hsplit]; exact hs
  rcases List.pairwise_append.mp hpw with ⟨-, -, hrel⟩
  have hdrop : (s.drop n).countP (fun x => decide (key r < key x)) = 0 := by
    rw [List.countP_eq_zero]
    intro x hx
    simp only [decide_eq_true_eq]
    exact not_lt.mpr (hrel r hr x hx)
  have htake : (s.take n).countP (fun x => decide (key r < key x))
      < (s.take n).length :=
    countP_lt_length_of_mem_not _ _ r hr (by simp)
  have htk : (s.take n).length ≤ n := by
    rw [List.length_take]
    exact min_le_left _ _
  calc s.countP (fun x => decide (key r < key x))
      = (s.take n).countP (fun x => decide (key r < key x))
        + (s.drop n).countP (fun x => decide (key r < key x)) := by
        rw [← List.countP_append, hsplit]
    _ < n := by omega

/-- In an ascending-sorted list, a member of the first `n` entries is
strictly smaller (by key) than fewer than `n` entries. -/
theorem mem_take_countLT_lt {α : Type} (key : α → Int) {u : List α}
    (hu : List.Pairwise (fun a b => key a ≤ key b) u) {n : Nat} {r : α}
    (hr : r ∈ u.take n) :
    u.countP (fun x => decide (key x < key r)) < n := by
  have hsplit : u.take n ++ u.drop n = u := List.take_append_drop n u
  have hpw : List.Pairwise (fun a b => key a ≤ key b) (u.take n ++ u.drop n) := by
    rw [hsplit]; exact hu
  rcases List.pairwise_append.mp hpw with ⟨-, -, hrel⟩
  have hdrop : (u.drop n).countP (fun x => decide (key x < key r)) = 0 := by
    rw [List.countP_eq_zero]
    intro x hx
    simp only [decide_eq_true_eq]
    exact not_lt.mpr (hrel r hr x hx)
  have htake : (u.take n).countP (fun x => decide (key x < key r))
      < (u.take n).length :=
    countP_lt_length_of_mem_not _ _ r hr (by simp)
  have htk : (u.take n).length ≤ n := by
    rw [List.length_take]
    exact min_le_left _ _
  calc u.countP (fun x => decide (key x < key r))
      = (u.take n).countP (fun x => decide (key x < key r))
        + (u.drop n).countP (fun x => decide (key x < key r)) := by
        rw [← List.countP_append, hsplit]
    _ < n := by omega

/-- With pairwise-distinct keys, exactly one entry shares a member's key. -/
theorem countP_key_eq_one {α : Type} (key : α → Int) :
    ∀ (l : List α), (l.map key).Nodup →
      ∀ r ∈ l, l.countP (fun x => decide (key x = key r)) = 1
  | [], _, r, hr => absurd hr (List.not_mem_nil r)
  | a :: l, hnd, r, hr => by
      rw [List.map_cons, List.nodup_cons] at hnd
      rcases hnd with ⟨hnotin, hnd2⟩
      rw [List.countP_cons]
      rcases List.mem_cons.mp hr with h | h
      · subst h
        have hz : l.countP (fun x => decide (key x = key r)) = 0 := by
          rw [List.countP_eq_zero]
          intro x hx
          simp only [decide_eq_true_eq]
          intro hxy
          exact hnotin (hxy ▸ List.mem_map_of_mem key hx)
        rw [hz]
        simp
      · have hne : ¬ (key a = key r) := fun hh =>
          hnotin (by rw [hh]; exact List.mem_map_of_mem key h)
        rw [countP_key_eq_one key l hnd2 r h]
        simp [hne]

/-- The three-row quantity table of the specification's worked example. -/
def exTable7 : Table :=
  ⟨["MIKTAR"], [[Value.i 5], [Value.i 10], [Value.i 1]]⟩

/-- C7: the Top 25 view's selections.  For every table: `nlargest 25`
(resp. `nsmallest 25`) returns 25 rows — or all rows when fewer exist;
when the table additionally has at least 50 rows with pairwise-distinct
quantities, the two selections are disjoint; the top-N rows come back
sorted in descending quantity order; equal-key rows keep their first-seen
relative order in the underlying stable sort; and on the spec's example
`[{5}, {10}, {1}]` the top 2 are `[{10}, {5}]`. -/
theorem C7_top_bottom_selection (t : Table) (c : String) :
    (nlargest 25 c t).rows.length = min 25 t.rows.length
      ∧ (nsmallest 25 c t).rows.length = min 25 t.rows.length
      ∧ ((t.rows.map (keyInt t.cols c)).Nodup → 50 ≤ t.rows.length →
          ∀ r ∈ (nlargest 25 c t).rows, r ∉ (nsmallest 25 c t).rows)
      ∧ List.Sorted (relDesc t.cols c) (nlargest 25 c t).rows
      ∧ (∀ a b, keyInt t.cols c a = keyInt t.cols c b → [a, b].Sublist t.rows →
          [a, b].Sublist (List.insertionSort (relDesc t.cols c) t.rows))
      ∧ (nlargest 2 "MIKTAR" exTable7).rows = [[Value.i 10], [Value.i 5]] := by
  refine ⟨?_, ?_, ?_, ?_, ?_, by decide⟩
  · simp [nlargest, List.length_take, List.length_insertionSort]
  · simp [nsmallest, List.length_take, List.length_insertionSort]
  · intro hnd h50 r hrtop hrbot
    have hs_sorted : List.Pairwise
        (fun a b => keyInt t.cols c b ≤ keyInt t.cols c a)
        (List.insertionSort (relDesc t.cols c) t.rows) :=
      List.sorted_insertionSort (relDesc t.cols c) t.rows
    have hu_sorted : List.Pairwise
        (fun a b => keyInt t.cols c a ≤ keyInt t.cols c b)
        (List.insertionSort (relAsc t.cols c) t.rows) :=
      List.sorted_insertionSort (relAsc t.cols c) t.rows
    have h1 := mem_take_countGT_lt (keyInt t.cols c) hs_sorted hrtop
    have h2 := mem_take_countLT_lt (keyInt t.cols c) hu_sorted hrbot
    rw [(List.perm_insertionSort (relDesc t.cols c) t.rows).countP_eq] at h1
    rw [(List.perm_insertionSort (relAsc t.cols c) t.rows).countP_eq] at h2
    have hrmem : r ∈ t.rows :=
      (List.perm_insertionSort (relDesc t.cols c) t.rows).mem_iff.mp
        (List.mem_of_mem_take hrtop)
    have heq1 := countP_key_eq_one (keyInt t.cols c) t.rows hnd r hrmem
    have htri := countP_key_trichotomy (keyInt t.cols c)
      (keyInt t.cols c r) t.rows
    omega
  · exact List.Pairwise.sublist (List.take_sublist _ _)
      (List.sorted_insertionSort (relDesc t.cols c) t.rows)
  · exact fun a b hk hab =>
      List.pair_sublist_insertionSort (le_of_eq hk.symm) hab

/-- A 50-row table with pairwise-distinct quantities. -/
def t50 : Table :=
  ⟨["MIKTAR"], (List.range 50).map (fun j => [Value.i (j : Int)])⟩

/-- Witness for C7 on the 50-row table: the disjointness conjunct's
hypotheses (pairwise-distinct quantities, at least 50 rows) are discharged
concretely and the disjoint selections follow from the theorem. -/
theorem C7_witness :
    (t50.rows.map (keyInt t50.cols "MIKTAR")).Nodup
      ∧ 50 ≤ t50.rows.length
      ∧ (∀ r ∈ (nlargest 25 "MIKTAR" t50).rows,
          r ∉ (nsmallest 25 "MIKTAR" t50).rows) :=
  ⟨by decide, by decide,
    (C7_top_bottom_selection t50 "MIKTAR").2.2.1 (by decide) (by decide)⟩
